import Mathlib

/-!
Verification development for the tech-event-booking repository.

Part 1 models `connectDB` from `src/lib/mongodb.ts` as a small-step
semantics over the process-wide cache `{ conn, promise }`.  The JavaScript
runtime is cooperative: each caller of `connectDB` runs atomically from its
entry up to `await cached.promise`, suspends there, and runs atomically
again when the awaited promise settles.  We therefore model a system state
holding the cache, the set of logical callers (each with a program
counter), the monotone counter of connect operations issued so far
(`nextAttempt`: attempt ids double as connection handles), and the settled
outcomes of attempts.  Scheduling nondeterminism is an explicit event list.

Part 2 models the Booking schema from `src/database/booking.model.ts`:
the email setters and validator, the `pre('save')` hook, and the
idempotent model registration guard.
-/

/-- Program counter of one logical caller of `connectDB`:
suspended at `await cached.promise` on attempt `a`, returned with
connection handle `c`, or thrown with the failure of attempt `a`. -/
inductive CallerSt where
  | awaiting (a : Nat)
  | doneOk (c : Nat)
  | doneErr (a : Nat)
deriving DecidableEq

/-- System state for `connectDB` (src/lib/mongodb.ts).
`conn` and `promise` are the two fields of the module-level `cached`
object; `nextAttempt` counts the connect operations issued so far and
supplies fresh attempt identifiers; `outcomes` records each settled
attempt (`true` = fulfilled, `false` = rejected); `callers` maps caller
ids to their program counters. -/
structure Sys where
  conn : Option Nat
  promise : Option Nat
  nextAttempt : Nat
  outcomes : List (Nat × Bool)
  callers : List (Nat × CallerSt)
deriving DecidableEq

/-- Scheduler events: a caller invokes `connectDB`; an in-flight attempt
settles (fulfilled or rejected); a suspended caller's continuation runs. -/
inductive Ev where
  | call (cid : Nat)
  | resolveOk (a : Nat)
  | resolveErr (a : Nat)
  | resume (cid : Nat)
deriving DecidableEq

/-- Replace the recorded state of caller `cid`. -/
def setCaller (l : List (Nat × CallerSt)) (cid : Nat) (st : CallerSt) :
    List (Nat × CallerSt) :=
  l.map (fun p => if p.1 = cid then (cid, st) else p)

/-- One atomic scheduler step, mirroring src/lib/mongodb.ts lines 42-69.
`call`: run `connectDB` from entry to the `await`: return `cached.conn`
if set; otherwise join `cached.promise` if present; otherwise issue a
fresh connect, store its promise, and await it.  `resolveOk`/`resolveErr`:
an issued, unsettled attempt settles.  `resume`: a caller suspended on a
settled attempt runs its continuation: on fulfilment it stores the handle
into `cached.conn` (leaving `cached.promise` untouched) and returns it; on
rejection it sets `cached.promise = null` and rethrows. -/
def step (s : Sys) : Ev → Sys
  | Ev.call cid =>
    match s.conn with
    | some c => { s with callers := (cid, CallerSt.doneOk c) :: s.callers }
    | none =>
      match s.promise with
      | some a => { s with callers := (cid, CallerSt.awaiting a) :: s.callers }
      | none =>
        { s with promise := some s.nextAttempt
               , nextAttempt := s.nextAttempt + 1
               , callers := (cid, CallerSt.awaiting s.nextAttempt) :: s.callers }
  | Ev.resolveOk a =>
    if a < s.nextAttempt then
      match s.outcomes.lookup a with
      | none => { s with outcomes := (a, true) :: s.outcomes }
      | some _ => s
    else s
  | Ev.resolveErr a =>
    if a < s.nextAttempt then
      match s.outcomes.lookup a with
      | none => { s with outcomes := (a, false) :: s.outcomes }
      | some _ => s
    else s
  | Ev.resume cid =>
    match s.callers.lookup cid with
    | some (CallerSt.awaiting a) =>
      match s.outcomes.lookup a with
      | some true =>
        { s with conn := some a
               , callers := setCaller s.callers cid (CallerSt.doneOk a) }
      | some false =>
        { s with promise := none
               , callers := setCaller s.callers cid (CallerSt.doneErr a) }
      | none => s
    | _ => s

/-- Initial state: `cached = { conn: null, promise: null }`, no attempts. -/
def init : Sys := ⟨none, none, 0, [], []⟩

/-- Run a list of scheduler events from a given state. -/
def runFrom (s : Sys) (evs : List Ev) : Sys := evs.foldl step s

/-- Run a list of scheduler events from the initial state. -/
def run (evs : List Ev) : Sys := runFrom init evs

/-- `List.lookup` of the caller just overwritten by `setCaller`. -/
theorem lookup_setCaller (l : List (Nat × CallerSt)) (cid : Nat)
    (st st0 : CallerSt) (h : l.lookup cid = some st0) :
    (setCaller l cid st).lookup cid = some st := by
  induction l with
  | nil => simp at h
  | cons p t ih =>
    obtain ⟨k, v⟩ := p
    by_cases hk : k = cid
    · subst hk
      simp [setCaller, List.lookup_cons]
    · have hb : (cid == k) = false := beq_false_of_ne fun hEq => hk hEq.symm
      rw [List.lookup_cons, hb] at h
      simp only [setCaller, List.map_cons, if_neg hk, List.lookup_cons, hb]
      exact ih h

/-- C9: whenever a connection is already cached (`cached.conn` set), a call
to `connectDB` returns that same handle immediately: the only change of
state is the caller finishing with that handle — no connect operation is
issued (`nextAttempt` unchanged), and neither cache field changes. -/
theorem connectDB_cached_conn_fast_path (s : Sys) (cid c : Nat)
    (h : s.conn = some c) :
    step s (Ev.call cid) = { s with callers := (cid, CallerSt.doneOk c) :: s.callers } := by
  simp [step, h]

/-- Witness for C9 at a concrete state with a cached connection. -/
theorem connectDB_cached_conn_fast_path_w :
    step ⟨some 7, none, 1, [(0, true)], []⟩ (Ev.call 3)
      = ⟨some 7, none, 1, [(0, true)], [(3, CallerSt.doneOk 7)]⟩ :=
  connectDB_cached_conn_fast_path ⟨some 7, none, 1, [(0, true)], []⟩ 3 7 rfl

/-- Counterexample for C2 as stated: run one call, fulfil the attempt,
resume the caller.  The connection is cached (`conn = some 0`), but the
in-flight future is NOT discarded: `cached.promise` still holds the
settled promise (the success path of `connectDB` never assigns
`cached.promise = null`). -/
theorem connectDB_success_promise_not_cleared_cex :
    (run [Ev.call 0, Ev.resolveOk 0, Ev.resume 0]).conn = some 0 ∧
    (run [Ev.call 0, Ev.resolveOk 0, Ev.resume 0]).promise = some 0 ∧
    (run [Ev.call 0, Ev.resolveOk 0, Ev.resume 0]).promise ≠ none := by
  decide

/-- No single step ever unsets a set `cached.conn`: every branch of
`connectDB` either leaves `conn` alone or assigns it a `some` value. -/
theorem step_conn_ne_none (s : Sys) (e : Ev) (h : s.conn ≠ none) :
    (step s e).conn ≠ none := by
  obtain ⟨c, hc⟩ : ∃ c, s.conn = some c := by
    cases hcc : s.conn with
    | none => exact absurd hcc h
    | some c => exact ⟨c, rfl⟩
  cases e with
  | call cid => simp [step, hc]
  | resolveOk a =>
    simp only [step]
    split
    · split <;> simp [hc]
    · simp [hc]
  | resolveErr a =>
    simp only [step]
    split
    · split <;> simp [hc]
    · simp [hc]
  | resume cid =>
    simp only [step]
    split
    · split <;> simp [hc]
    · simp [hc]

/-- Once `cached.conn` is set, it stays set under EVERY later schedule of
events — the remainder of the process. -/
theorem runFrom_conn_ne_none (s : Sys) (evs : List Ev) (h : s.conn ≠ none) :
    (runFrom s evs).conn ≠ none := by
  induction evs generalizing s with
  | nil => exact h
  | cons e t ih => exact ih (step s e) (step_conn_ne_none s e h)

/-- C2 (amended): when the shared attempt fulfils, the resumed caller
stores the handle into `cached.conn` and returns it; `cached.promise` is
left unchanged (the resolved future is retained, not cleared); and once
`cached.conn` is set it stays set under every later schedule of events —
for the remainder of the process. -/
theorem connectDB_success_caches_conn (s : Sys) (cid a : Nat)
    (h1 : s.callers.lookup cid = some (CallerSt.awaiting a))
    (h2 : s.outcomes.lookup a = some true) :
    (step s (Ev.resume cid)).conn = some a ∧
    (step s (Ev.resume cid)).promise = s.promise ∧
    (step s (Ev.resume cid)).callers.lookup cid = some (CallerSt.doneOk a) ∧
    (∀ evs : List Ev, (runFrom (step s (Ev.resume cid)) evs).conn ≠ none) := by
  have hstep : step s (Ev.resume cid)
      = { s with conn := some a
               , callers := setCaller s.callers cid (CallerSt.doneOk a) } := by
    simp [step, h1, h2]
  refine ⟨by rw [hstep], by rw [hstep], ?_, ?_⟩
  · rw [hstep]
    exact lookup_setCaller s.callers cid (CallerSt.doneOk a) (CallerSt.awaiting a) h1
  · intro evs
    apply runFrom_conn_ne_none
    rw [hstep]
    simp

/-- Witness for C2's amended theorem at the state reached after one call
whose attempt has fulfilled. -/
theorem connectDB_success_caches_conn_w :
    (step ⟨none, some 0, 1, [(0, true)], [(0, CallerSt.awaiting 0)]⟩ (Ev.resume 0)).conn = some 0 ∧
    (step ⟨none, some 0, 1, [(0, true)], [(0, CallerSt.awaiting 0)]⟩ (Ev.resume 0)).promise = some 0 :=
  ⟨(connectDB_success_caches_conn ⟨none, some 0, 1, [(0, true)], [(0, CallerSt.awaiting 0)]⟩
      0 0 (by decide) (by decide)).1,
   (connectDB_success_caches_conn ⟨none, some 0, 1, [(0, true)], [(0, CallerSt.awaiting 0)]⟩
      0 0 (by decide) (by decide)).2.1⟩

/-- C3: when the shared attempt rejects, the resumed caller clears
`cached.promise`, leaves `cached.conn` unset, and rethrows that attempt's
failure; a call arriving next (cache empty again) issues a fresh connect
operation — a new attempt id, not the stale settled one. -/
theorem connectDB_failure_clears_and_retries (s : Sys) (cid k a : Nat)
    (hconn : s.conn = none)
    (h1 : s.callers.lookup cid = some (CallerSt.awaiting a))
    (h2 : s.outcomes.lookup a = some false)
    (ha : a < s.nextAttempt) :
    (step s (Ev.resume cid)).promise = none ∧
    (step s (Ev.resume cid)).conn = none ∧
    (step s (Ev.resume cid)).callers.lookup cid = some (CallerSt.doneErr a) ∧
    (step (step s (Ev.resume cid)) (Ev.call k)).nextAttempt = s.nextAttempt + 1 ∧
    (step (step s (Ev.resume cid)) (Ev.call k)).promise = some s.nextAttempt ∧
    (step (step s (Ev.resume cid)) (Ev.call k)).callers.lookup k
      = some (CallerSt.awaiting s.nextAttempt) ∧
    s.nextAttempt ≠ a := by
  have hstep : step s (Ev.resume cid)
      = { s with promise := none
               , callers := setCaller s.callers cid (CallerSt.doneErr a) } := by
    simp [step, h1, h2]
  have hcall : step (step s (Ev.resume cid)) (Ev.call k)
      = { s with promise := some s.nextAttempt
               , nextAttempt := s.nextAttempt + 1
               , callers := (k, CallerSt.awaiting s.nextAttempt)
                   :: setCaller s.callers cid (CallerSt.doneErr a) } := by
    rw [hstep]; simp [step, hconn]
  refine ⟨by rw [hstep], by rw [hstep]; exact hconn, ?_, by rw [hcall], by rw [hcall], ?_, ?_⟩
  · rw [hstep]
    exact lookup_setCaller s.callers cid (CallerSt.doneErr a) (CallerSt.awaiting a) h1
  · rw [hcall]; simp [List.lookup]
  · exact fun hEq => absurd (hEq ▸ ha) (lt_irrefl a)

/-- Witness for C3 at the state reached after one call whose attempt has
rejected: the resumed caller clears the promise and a second call issues
attempt 1. -/
theorem connectDB_failure_clears_and_retries_w :
    (step ⟨none, some 0, 1, [(0, false)], [(0, CallerSt.awaiting 0)]⟩ (Ev.resume 0)).promise = none ∧
    (step (step ⟨none, some 0, 1, [(0, false)], [(0, CallerSt.awaiting 0)]⟩ (Ev.resume 0))
        (Ev.call 5)).nextAttempt = 2 :=
  ⟨(connectDB_failure_clears_and_retries ⟨none, some 0, 1, [(0, false)], [(0, CallerSt.awaiting 0)]⟩
      0 5 0 (by decide) (by decide) (by decide) (by decide)).1,
   (connectDB_failure_clears_and_retries ⟨none, some 0, 1, [(0, false)], [(0, CallerSt.awaiting 0)]⟩
      0 5 0 (by decide) (by decide) (by decide) (by decide)).2.2.2.1⟩

/-- Counterexample for C1 as stated: in the sequence
call 0 / attempt rejects / caller resumes / call 1, every call is made
before any connection is established (`conn` is `none` throughout), yet
TWO connect operations are issued for the whole sequence, not exactly
one — the retry mandated by the failure path (C3) contradicts "exactly
one underlying connect operation is issued for the whole sequence". -/
theorem connectDB_single_connect_cex :
    (run [Ev.call 0, Ev.resolveErr 0, Ev.resume 0]).conn = none ∧
    (run [Ev.call 0, Ev.resolveErr 0, Ev.resume 0, Ev.call 1]).conn = none ∧
    (run [Ev.call 0, Ev.resolveErr 0, Ev.resume 0, Ev.call 1]).nextAttempt = 2 := by
  decide

/-- `runFrom` unrolled one event. -/
theorem runFrom_cons (s : Sys) (e : Ev) (l : List Ev) :
    runFrom s (e :: l) = runFrom (step s e) l := rfl

/-- `runFrom` over an appended event list. -/
theorem runFrom_append (s : Sys) (l1 l2 : List Ev) :
    runFrom s (l1 ++ l2) = runFrom (runFrom s l1) l2 := by
  simp [runFrom, List.foldl_append]

/-- The result every caller observes once attempt 0 settles with `b`:
the connection handle on fulfilment, the rejection on failure. -/
def resOf (b : Bool) : CallerSt :=
  if b then CallerSt.doneOk 0 else CallerSt.doneErr 0

/-- The settling event of attempt 0 with outcome `b`. -/
def resolveEv (b : Bool) : Ev := if b then Ev.resolveOk 0 else Ev.resolveErr 0

/-- Invariant of the call phase (no attempt settled yet): no outcome, no
cached connection, either nothing issued or exactly attempt 0 in flight,
and every caller suspended on attempt 0. -/
def InvA (s : Sys) : Prop :=
  s.outcomes = [] ∧ s.conn = none ∧
  ((s.promise = none ∧ s.nextAttempt = 0) ∨
   (s.promise = some 0 ∧ s.nextAttempt = 1)) ∧
  (∀ p ∈ s.callers, p.2 = CallerSt.awaiting 0)

/-- Invariant after attempt 0 settled with outcome `b`: still only one
connect ever issued, and every caller is either still suspended on
attempt 0 or finished with that attempt's unique result. -/
def InvB (b : Bool) (s : Sys) : Prop :=
  s.outcomes = [(0, b)] ∧ s.nextAttempt = 1 ∧
  (∀ p ∈ s.callers, p.2 = CallerSt.awaiting 0 ∨ p.2 = resOf b) ∧
  (s.conn = none ∨ (b = true ∧ s.conn = some 0))

theorem invA_init : InvA init := by
  refine ⟨rfl, rfl, Or.inl ⟨rfl, rfl⟩, ?_⟩
  intro p hp
  simp [init] at hp

theorem invA_call (s : Sys) (cid : Nat) (h : InvA s) :
    InvA (step s (Ev.call cid)) ∧ (step s (Ev.call cid)).nextAttempt = 1 := by
  obtain ⟨ho, hc, hd, hcal⟩ := h
  rcases hd with ⟨hp, hn⟩ | ⟨hp, hn⟩
  · have hstep : step s (Ev.call cid)
        = { s with promise := some 0, nextAttempt := 1,
                   callers := (cid, CallerSt.awaiting 0) :: s.callers } := by
      simp [step, hc, hp, hn]
    rw [hstep]
    refine ⟨⟨ho, hc, Or.inr ⟨rfl, rfl⟩, ?_⟩, rfl⟩
    intro p hp2
    rcases List.mem_cons.mp hp2 with hEq | hmem
    · rw [hEq]
    · exact hcal p hmem
  · have hstep : step s (Ev.call cid)
        = { s with callers := (cid, CallerSt.awaiting 0) :: s.callers } := by
      simp [step, hc, hp]
    rw [hstep]
    refine ⟨⟨ho, hc, Or.inr ⟨hp, hn⟩, ?_⟩, hn⟩
    intro p hp2
    rcases List.mem_cons.mp hp2 with hEq | hmem
    · rw [hEq]
    · exact hcal p hmem

theorem invA_calls (cids : List Nat) (s : Sys) (h : InvA s) :
    InvA (runFrom s (cids.map Ev.call)) ∧
      (cids ≠ [] → (runFrom s (cids.map Ev.call)).nextAttempt = 1) := by
  induction cids generalizing s with
  | nil => exact ⟨h, fun hne => absurd rfl hne⟩
  | cons c rest ih =>
    have h1 := invA_call s c h
    have h2 := ih (step s (Ev.call c)) h1.1
    simp only [List.map_cons, runFrom_cons]
    refine ⟨h2.1, fun _ => ?_⟩
    rcases Decidable.em (rest = []) with hre | hre
    · subst hre
      simpa [runFrom] using h1.2
    · exact h2.2 hre

theorem invA_resolve (s : Sys) (b : Bool) (h : InvA s) (hn : s.nextAttempt = 1) :
    InvB b (step s (resolveEv b)) := by
  obtain ⟨ho, hc, _, hcal⟩ := h
  have hlt : 0 < s.nextAttempt := by rw [hn]; exact Nat.zero_lt_one
  have hlk : s.outcomes.lookup 0 = none := by rw [ho]; rfl
  cases b with
  | true =>
    have hstep : step s (resolveEv true) = { s with outcomes := [(0, true)] } := by
      simp [resolveEv, step, hlt, hlk, ho]
    rw [hstep]
    exact ⟨rfl, hn, fun p hp => Or.inl (hcal p hp), Or.inl hc⟩
  | false =>
    have hstep : step s (resolveEv false) = { s with outcomes := [(0, false)] } := by
      simp [resolveEv, step, hlt, hlk, ho]
    rw [hstep]
    exact ⟨rfl, hn, fun p hp => Or.inl (hcal p hp), Or.inl hc⟩

/-- A successful `List.lookup` result is a member of the list. -/
theorem lookup_mem (l : List (Nat × CallerSt)) (k : Nat) (v : CallerSt)
    (h : l.lookup k = some v) : (k, v) ∈ l := by
  induction l with
  | nil => simp at h
  | cons p t ih =>
    obtain ⟨k2, v2⟩ := p
    rw [List.lookup_cons] at h
    cases hbe : (k == k2) with
    | true =>
      rw [hbe] at h
      simp only at h
      have hk : k = k2 := eq_of_beq hbe
      have hv : v2 = v := Option.some.inj h
      rw [← hk, hv] at *
      exact List.mem_cons_self _ _
    | false =>
      rw [hbe] at h
      simp only at h
      exact List.mem_cons_of_mem _ (ih h)

/-- Members of `setCaller l cid st` are old members or the rewritten entry. -/
theorem mem_setCaller (l : List (Nat × CallerSt)) (cid : Nat) (st : CallerSt)
    (p : Nat × CallerSt) (hp : p ∈ setCaller l cid st) :
    p ∈ l ∨ p = (cid, st) := by
  simp only [setCaller, List.mem_map] at hp
  obtain ⟨q, hq, hEq⟩ := hp
  by_cases h1 : q.1 = cid
  · right
    rw [← hEq]
    simp [h1]
  · left
    rw [← hEq, if_neg h1]
    exact hq

theorem invB_resume (s : Sys) (b : Bool) (cid : Nat) (h : InvB b s) :
    InvB b (step s (Ev.resume cid)) := by
  obtain ⟨ho, hn, hcal, hconn⟩ := h
  cases hlk : s.callers.lookup cid with
  | none =>
    have hstep : step s (Ev.resume cid) = s := by simp [step, hlk]
    rw [hstep]
    exact ⟨ho, hn, hcal, hconn⟩
  | some st =>
    have hmem := lookup_mem _ _ _ hlk
    have hst := hcal _ hmem
    simp only at hst
    have hol : s.outcomes.lookup 0 = some b := by rw [ho]; rfl
    rcases hst with hAw | hRes
    · subst hAw
      cases b with
      | true =>
        have hstep : step s (Ev.resume cid)
            = { s with conn := some 0
                     , callers := setCaller s.callers cid (CallerSt.doneOk 0) } := by
          simp [step, hlk, hol]
        rw [hstep]
        refine ⟨ho, hn, ?_, Or.inr ⟨rfl, rfl⟩⟩
        intro p hp
        rcases mem_setCaller _ _ _ _ hp with hold | hnew
        · exact hcal p hold
        · right
          rw [hnew]
          rfl
      | false =>
        have hstep : step s (Ev.resume cid)
            = { s with promise := none
                     , callers := setCaller s.callers cid (CallerSt.doneErr 0) } := by
          simp [step, hlk, hol]
        rw [hstep]
        refine ⟨ho, hn, ?_, hconn⟩
        intro p hp
        rcases mem_setCaller _ _ _ _ hp with hold | hnew
        · exact hcal p hold
        · right
          rw [hnew]
          rfl
    · rw [hRes] at hlk
      have hstep : step s (Ev.resume cid) = s := by
        cases b with
        | true =>
          simp only [resOf, if_true] at hlk
          simp [step, hlk]
        | false =>
          simp only [resOf, Bool.false_eq_true, if_false] at hlk
          simp [step, hlk]
      rw [hstep]
      exact ⟨ho, hn, hcal, hconn⟩

theorem invB_resumes (rids : List Nat) (s : Sys) (b : Bool) (h : InvB b s) :
    InvB b (runFrom s (rids.map Ev.resume)) := by
  induction rids generalizing s with
  | nil => exact h
  | cons r rest ih =>
    simp only [List.map_cons, runFrom_cons]
    exact ih _ (invB_resume s b r h)

/-- C1 (amended): restricted to executions in which every call to
`connectDB` is made before the (single) connection attempt settles —
i.e. any number of calls, then the attempt settles with outcome `b`,
then any schedule of caller resumptions — exactly ONE connect operation
is issued for the whole sequence (`nextAttempt = 1`, which also bounds
the attempts ever in flight at any instant by one), and every caller is
either still suspended on that single attempt or has received its unique
result: the one handle on fulfilment, the one failure on rejection.
Unrestricted, the claim is false: after a rejection the next call
deliberately issues a fresh connect (see the counterexample). -/
theorem connectDB_single_flight_amended (cids rids : List Nat) (b : Bool)
    (hne : cids ≠ []) :
    (run (cids.map Ev.call ++ resolveEv b :: rids.map Ev.resume)).nextAttempt = 1 ∧
    ∀ p ∈ (run (cids.map Ev.call ++ resolveEv b :: rids.map Ev.resume)).callers,
      p.2 = CallerSt.awaiting 0 ∨ p.2 = resOf b := by
  have hA := invA_calls cids init invA_init
  have hn := hA.2 hne
  have hB := invA_resolve _ b hA.1 hn
  have hB2 := invB_resumes rids _ b hB
  have hrun : run (cids.map Ev.call ++ resolveEv b :: rids.map Ev.resume)
      = runFrom (step (runFrom init (cids.map Ev.call)) (resolveEv b))
          (rids.map Ev.resume) := by
    simp only [run, runFrom_append, runFrom_cons]
  rw [hrun]
  exact ⟨hB2.2.1, hB2.2.2.1⟩

/-- Witness for C1's amended theorem: two callers, fulfilment, two
resumptions — one connect operation issued. -/
theorem connectDB_single_flight_amended_w :
    (run ([0, 1].map Ev.call ++ resolveEv true :: [0, 1].map Ev.resume)).nextAttempt = 1 :=
  (connectDB_single_flight_amended [0, 1] [0, 1] true (by decide)).1

/-!
Part 2: the Booking schema, src/database/booking.model.ts.
-/

/-- Result of one run of the Booking `pre('save')` hook: the outcome
surfaced to mongoose (an error aborts the write) and the number of
`Event.findById` lookups the hook issued. -/
structure HookResult where
  outcome : Except String Unit
  lookups : Nat
deriving Repr

/-- The message thrown inside the try block when the referenced Event is
absent (booking.model.ts lines 54-57). -/
def eventNotFoundMsg (id : String) : String :=
  "Event with ID " ++ id ++ " does not exist. Cannot create booking."

/-- The catch block's rewrapping of whatever failure it caught
(booking.model.ts lines 60-63). -/
def validateWrap (m : String) : String :=
  "Failed to validate event reference: " ++ m

/-- Body of the hook's try block.  The environment's answer to
`Event.findById(this.eventId)` is passed in: `.error e` models a rejected
lookup, `.ok none` a null result (no such event), `.ok (some _)` a found
document.  A null result raises the not-found message; a rejected lookup
re-raises its failure; a found document succeeds. -/
def preSaveTry (id : String) (lookup : Except String (Option Unit)) :
    Except String Unit :=
  match lookup with
  | Except.error e => Except.error e
  | Except.ok none => Except.error (eventNotFoundMsg id)
  | Except.ok (some _) => Except.ok ()

/-- The `pre('save')` hook (booking.model.ts lines 49-66).
`isModifiedEventId` is mongoose's `this.isModified('eventId')` — true for
a new document or when `eventId` was just changed.  When false the hook
body is skipped entirely (no lookup).  When true, one lookup is issued and
ANY failure of the try body — the lookup's own rejection or the not-found
throw — is caught by the catch block and rewrapped with `validateWrap`. -/
def preSave (isModifiedEventId : Bool) (id : String)
    (lookup : Except String (Option Unit)) : HookResult :=
  if isModifiedEventId then
    match preSaveTry id lookup with
    | Except.error m => ⟨Except.error (validateWrap m), 1⟩
    | Except.ok _ => ⟨Except.ok (), 1⟩
  else ⟨Except.ok (), 0⟩

/-- C4: saving a Booking whose `eventId` matches no Event (the lookup
returns null) aborts the write with an error, and that error's message
names the missing event identifier (it occurs verbatim inside the
message). -/
theorem booking_presave_missing_event_rejected (id : String) :
    preSave true id (Except.ok none)
      = ⟨Except.error (validateWrap (eventNotFoundMsg id)), 1⟩ ∧
    ∃ u v, validateWrap (eventNotFoundMsg id) = u ++ id ++ v := by
  refine ⟨rfl, "Failed to validate event reference: Event with ID ",
    " does not exist. Cannot create booking.", ?_⟩
  simp only [validateWrap, eventNotFoundMsg, String.append_assoc]
  rfl

/-- Witness for C4 at the concrete identifier `"652f"`. -/
theorem booking_presave_missing_event_rejected_w :
    preSave true "652f" (Except.ok none)
      = ⟨Except.error (validateWrap (eventNotFoundMsg "652f")), 1⟩ :=
  (booking_presave_missing_event_rejected "652f").1

/-- Counterexample for C5 as stated: the not-found throw happens INSIDE
the try block, so it is caught by the hook's own catch and rewrapped
exactly like a failed lookup.  At `eventId = "e1"`, the absent-event
outcome and the rejected-lookup outcome carry the SAME wrapper — they are
one error kind, not two distinct ones, and the absent case is not
surfaced as a bare referential failure. -/
theorem booking_presave_distinct_kinds_cex :
    (preSave true "e1" (Except.ok none)).outcome
      = Except.error (validateWrap "Event with ID e1 does not exist. Cannot create booking.") ∧
    (preSave true "e1" (Except.error "network down")).outcome
      = Except.error (validateWrap "network down") := by
  exact ⟨rfl, rfl⟩

/-- C5 (amended): both failure cases surface as the SAME wrapped kind —
an error whose message is `validateWrap` applied to the underlying
message.  For an absent event the underlying message is the referential
failure naming the identifier; for a rejected lookup it is the lookup's
own message, preserved verbatim inside the wrapper (so a lookup failure
is never silently converted into "event not found"); a found event
succeeds. -/
theorem booking_presave_uniform_wrap (id e : String) :
    (preSave true id (Except.ok none)).outcome
      = Except.error (validateWrap (eventNotFoundMsg id)) ∧
    (preSave true id (Except.error e)).outcome
      = Except.error (validateWrap e) ∧
    (preSave true id (Except.ok (some ()))).outcome = Except.ok () := by
  exact ⟨rfl, rfl, rfl⟩

/-- C6: every error the hook raises — the not-found case included — has
been caught and rewrapped by the catch block: its message is
`"Failed to validate event reference: " ++ rest` for some `rest`, so
callers cannot tell "event not found" from "lookup failed" by error kind;
in the not-found case the interpolated `rest` is the message naming the
identifier. -/
theorem booking_presave_all_errors_wrapped (isMod : Bool) (id : String)
    (lookup : Except String (Option Unit)) (m : String)
    (h : (preSave isMod id lookup).outcome = Except.error m) :
    (∃ rest, m = "Failed to validate event reference: " ++ rest) ∧
    (lookup = Except.ok none → m = validateWrap (eventNotFoundMsg id)) := by
  cases isMod with
  | false => simp [preSave] at h
  | true =>
    cases lookup with
    | error e =>
      simp [preSave, preSaveTry] at h
      exact ⟨⟨e, by rw [← h]; rfl⟩, fun hc => by simp at hc⟩
    | ok o =>
      cases o with
      | none =>
        simp [preSave, preSaveTry] at h
        exact ⟨⟨eventNotFoundMsg id, by rw [← h]; rfl⟩, fun _ => h.symm⟩
      | some u =>
        simp [preSave, preSaveTry] at h

/-- Witness for C6 at the absent-event case with identifier `"e1"`. -/
theorem booking_presave_all_errors_wrapped_w :
    ∃ rest, validateWrap (eventNotFoundMsg "e1")
        = "Failed to validate event reference: " ++ rest :=
  (booking_presave_all_errors_wrapped true "e1" (Except.ok none)
    (validateWrap (eventNotFoundMsg "e1")) rfl).1

/-- C8: an update that does not touch `eventId` (`isModified('eventId')`
is false, e.g. an email-only update) skips the hook body entirely: no
Event lookup is issued and the hook succeeds, whatever the Event store
would have answered — including when the referenced Event no longer
exists. -/
theorem booking_update_email_only_no_lookup (id : String)
    (lookup : Except String (Option Unit)) :
    preSave false id lookup = ⟨Except.ok (), 0⟩ := rfl

/-- ASCII members of the JavaScript regex class `\s` (its Unicode members
are not modeled; none occur in this development). -/
def isSpaceChar (ch : Char) : Bool :=
  ch == ' ' || ch == '\t' || ch == '\n' || ch == '\r' || ch == '\x0b' || ch == '\x0c'

/-- The character class `[^\s@]` of the validator's regex
`/^[^\s@]+@[^\s@]+\.[^\s@]+$/` (booking.model.ts line 33). -/
def isEmailChar (ch : Char) : Bool := !(isSpaceChar ch) && !(ch == '@')

/-- `dotNotLast l` is true iff `l` contains a `'.'` with at least one
character after it: the backtracking choices of `\.` inside
`[^\s@]+\.[^\s@]+` once the part before the candidate dot is nonempty. -/
def dotNotLast : List Char → Bool
  | [] => false
  | [_] => false
  | a :: b :: t => if a = '.' then true else dotNotLast (b :: t)

/-- `hasInteriorDot l` is true iff `l` has a `'.'` that is neither its
first nor its last character — the extra condition `[^\s@]+\.[^\s@]+`
imposes on an all-`[^\s@]` domain. -/
def hasInteriorDot : List Char → Bool
  | [] => false
  | _ :: t => dotNotLast t

/-- The anchored regex `/^[^\s@]+@[^\s@]+\.[^\s@]+$/` as a matcher on
character lists.  The local part `[^\s@]+` cannot contain `'@'`, so any
match splits the input at its first `'@'`; the rest must be all `[^\s@]`
with an interior dot. -/
def emailRegexMatch (l : List Char) : Bool :=
  match l.dropWhile (fun ch => !(ch == '@')) with
  | '@' :: rest =>
    !(l.takeWhile (fun ch => !(ch == '@'))).isEmpty &&
    (l.takeWhile (fun ch => !(ch == '@'))).all isEmailChar &&
    rest.all isEmailChar && hasInteriorDot rest
  | _ => false

/-- The email validator of the Booking schema (booking.model.ts
lines 31-36): `emailRegex.test(email)`. -/
def emailRegexTest (s : String) : Bool := emailRegexMatch s.toList

/-- ASCII `toLowerCase` of one character, as JavaScript applies it. -/
def lowerChar (ch : Char) : Char :=
  if 'A' ≤ ch ∧ ch ≤ 'Z' then Char.ofNat (ch.toNat + 32) else ch

/-- `String.prototype.trim`: strip leading and trailing whitespace. -/
def trimChars (l : List Char) : List Char :=
  ((l.dropWhile isSpaceChar).reverse.dropWhile isSpaceChar).reverse

/-- The value the schema stores for an email input: the `trim: true` and
`lowercase: true` setters (booking.model.ts lines 27-28) applied before
validation and storage. -/
def storedEmail (s : String) : String :=
  String.mk ((trimChars s.toList).map lowerChar)

/-- The acceptance condition C7 claims, written from the spec's words for
comparison with the implemented regex: exactly one `'@'`, no whitespace
anywhere, and a `'.'` somewhere in the part after the `'@'`. -/
def specEmailShape (s : String) : Bool :=
  (s.toList.count '@' == 1) &&
  s.toList.all (fun ch => !(isSpaceChar ch)) &&
  ((s.toList.dropWhile (fun ch => !(ch == '@'))).drop 1).contains '.'

/-- What the regex actually accepts: a split `x ++ '@' :: y ++ '.' :: z`
with `x`, `y`, `z` nonempty and every character of them in `[^\s@]`. -/
def emailShape (l : List Char) : Prop :=
  ∃ x y z, l = x ++ '@' :: (y ++ '.' :: z) ∧ x ≠ [] ∧ y ≠ [] ∧ z ≠ [] ∧
    (x ++ y ++ z).all isEmailChar = true

theorem dotNotLast_iff (l : List Char) :
    dotNotLast l = true ↔ ∃ y z, l = y ++ '.' :: z ∧ z ≠ [] := by
  induction l with
  | nil =>
    simp only [dotNotLast]
    constructor
    · intro h; exact absurd h (by simp)
    · rintro ⟨y, z, hl, hz⟩
      exact absurd hl (by simp)
  | cons a t ih =>
    cases t with
    | nil =>
      simp only [dotNotLast]
      constructor
      · intro h; exact absurd h (by simp)
      · rintro ⟨y, z, hl, hz⟩
        cases y with
        | nil => simp at hl; exact (hz hl.2).elim
        | cons b y2 => simp at hl
    | cons b t2 =>
      by_cases ha : a = '.'
      · subst ha
        simp only [dotNotLast, if_pos rfl, true_iff]
        constructor
        · intro _
          exact ⟨[], b :: t2, rfl, by simp⟩
        · intro _; rfl
      · rw [show dotNotLast (a :: b :: t2) = dotNotLast (b :: t2) from by
          simp [dotNotLast, ha]]
        rw [ih]
        constructor
        · rintro ⟨y, z, hl, hz⟩
          exact ⟨a :: y, z, by rw [List.cons_append, hl], hz⟩
        · rintro ⟨y, z, hl, hz⟩
          cases y with
          | nil => simp at hl; exact absurd hl.1 ha
          | cons c y2 =>
            simp only [List.cons_append, List.cons.injEq] at hl
            exact ⟨y2, z, hl.2, hz⟩

theorem hasInteriorDot_iff (l : List Char) :
    hasInteriorDot l = true ↔ ∃ y z, l = y ++ '.' :: z ∧ y ≠ [] ∧ z ≠ [] := by
  cases l with
  | nil =>
    simp only [hasInteriorDot]
    constructor
    · intro h; exact absurd h (by simp)
    · rintro ⟨y, z, hl, hy, hz⟩
      exact absurd hl (by simp)
  | cons a t =>
    rw [show hasInteriorDot (a :: t) = dotNotLast t from rfl, dotNotLast_iff]
    constructor
    · rintro ⟨y, z, hl, hz⟩
      exact ⟨a :: y, z, by rw [List.cons_append, hl], by simp, hz⟩
    · rintro ⟨y, z, hl, hy, hz⟩
      cases y with
      | nil => exact absurd rfl hy
      | cons c y2 =>
        simp only [List.cons_append, List.cons.injEq] at hl
        exact ⟨y2, z, hl.2, hz⟩

/-- Characters accepted by `[^\s@]` are in particular not `'@'`. -/
theorem all_email_no_at (x : List Char) (h : x.all isEmailChar = true) :
    x.all (fun ch => !(ch == '@')) = true := by
  rw [List.all_eq_true] at h ⊢
  intro ch hch
  have := h ch hch
  simp only [isEmailChar, Bool.and_eq_true] at this
  exact this.2

theorem takeWhile_no_at (x r : List Char)
    (hx : x.all (fun ch => !(ch == '@')) = true) :
    (x ++ '@' :: r).takeWhile (fun ch => !(ch == '@')) = x := by
  induction x with
  | nil => simp [List.takeWhile_cons]
  | cons c t ih =>
    rw [List.all_cons, Bool.and_eq_true] at hx
    simp only [List.cons_append, List.takeWhile_cons, hx.1, if_true, ih hx.2]

theorem dropWhile_no_at (x r : List Char)
    (hx : x.all (fun ch => !(ch == '@')) = true) :
    (x ++ '@' :: r).dropWhile (fun ch => !(ch == '@')) = '@' :: r := by
  induction x with
  | nil => simp [List.dropWhile_cons]
  | cons c t ih =>
    rw [List.all_cons, Bool.and_eq_true] at hx
    rw [List.cons_append, List.dropWhile_cons, hx.1]
    exact ih hx.2

/-- The regex matcher accepts exactly the `emailShape` decompositions. -/
theorem emailRegexMatch_iff (l : List Char) :
    emailRegexMatch l = true ↔ emailShape l := by
  constructor
  · intro h
    unfold emailRegexMatch at h
    split at h
    case h_1 rest heq =>
      simp only [Bool.and_eq_true] at h
      obtain ⟨⟨⟨hne, hloc⟩, hrest⟩, hdot⟩ := h
      have hsplit : l.takeWhile (fun ch => !(ch == '@')) ++ '@' :: rest = l := by
        rw [← heq]
        exact List.takeWhile_append_dropWhile ..
      obtain ⟨y, z, hrz, hy, hz⟩ := (hasInteriorDot_iff rest).mp hdot
      refine ⟨l.takeWhile (fun ch => !(ch == '@')), y, z, ?_, ?_, hy, hz, ?_⟩
      · rw [hrz] at hsplit
        exact hsplit.symm
      · intro hEmpty
        rw [hEmpty] at hne
        simp at hne
      · rw [hrz] at hrest
        rw [List.all_append] at hrest
        rw [List.all_cons] at hrest
        simp only [Bool.and_eq_true] at hrest
        rw [List.append_assoc, List.all_append, List.all_append]
        simp only [Bool.and_eq_true]
        exact ⟨hloc, hrest.1, hrest.2.2⟩
    case h_2 =>
      exact absurd h (by simp)
  · rintro ⟨x, y, z, hl, hx, hy, hz, hall⟩
    rw [List.append_assoc, List.all_append, List.all_append] at hall
    simp only [Bool.and_eq_true] at hall
    obtain ⟨hxa, hya, hza⟩ := hall
    have hnoat := all_email_no_at x hxa
    have hrest : (y ++ '.' :: z).all isEmailChar = true := by
      rw [List.all_append, List.all_cons]
      simp only [Bool.and_eq_true]
      exact ⟨hya, by decide, hza⟩
    unfold emailRegexMatch
    rw [hl, dropWhile_no_at x _ hnoat]
    simp only
    rw [takeWhile_no_at x _ hnoat]
    have hne : x.isEmpty = false := by
      cases x with
      | nil => exact absurd rfl hx
      | cons c t => rfl
    rw [hne, hrest]
    have hdot : hasInteriorDot (y ++ '.' :: z) = true :=
      (hasInteriorDot_iff _).mpr ⟨y, z, rfl, hy, hz⟩
    rw [hdot]
    simp [hxa]

/-- Counterexample for C7 as stated: the input `"a@b."` is unchanged by
normalization and satisfies the claim's acceptance condition — exactly
one `'@'`, no whitespace, and a `'.'`-containing domain part — yet the
validator's regex rejects it (the regex demands a character after the
dot). -/
theorem booking_email_shape_cex :
    specEmailShape "a@b." = true ∧
    storedEmail "a@b." = "a@b." ∧
    emailRegexTest "a@b." = false := by
  decide

/-- C7 (amended): the stored value is the input trimmed and lowercased
(`"  USER@Example.com "` is stored as `"user@example.com"`), and the
validator accepts exactly the strings splitting as
`local ++ "@" ++ y ++ "." ++ z` with `local`, `y`, `z` nonempty and free
of whitespace and `'@'` — i.e. exactly one `'@'`, no whitespace, a
nonempty local part, and a dot in the domain that is neither its first
nor its last character.  `"user@example.com"` is accepted and
`"not-an-email"` is rejected. -/
theorem booking_email_validation_amended :
    (∀ s : String, emailRegexTest s = true ↔ emailShape s.toList) ∧
    storedEmail "  USER@Example.com " = "user@example.com" ∧
    emailRegexTest (storedEmail "  USER@Example.com ") = true ∧
    emailRegexTest (storedEmail "not-an-email") = false := by
  refine ⟨fun s => emailRegexMatch_iff s.toList, ?_, ?_, ?_⟩
  · decide
  · decide
  · decide

/-- Witness: the amended characterization applied at `"x@y.z"`. -/
theorem booking_email_validation_amended_w :
    emailShape ("x@y.z".toList) :=
  (booking_email_validation_amended.1 "x@y.z").mp (by decide)

/-- A compiled mongoose model: its registered name and (abstracted)
schema identity. -/
structure ModelDef where
  modelName : String
  schemaId : Nat
deriving DecidableEq

/-- Identity of `bookingSchema` (the schema value defined at
booking.model.ts lines 19-43); its content is abstracted. -/
def bookingSchemaId : Nat := 0

/-- `mongoose.model(name, schema)`: compiles and registers a model, but
throws `OverwriteModelError` if a model of that name already exists in
the `mongoose.models` registry. -/
def defineModel (reg : List (String × ModelDef)) (nm : String) (sid : Nat) :
    Except String (ModelDef × List (String × ModelDef)) :=
  match reg.lookup nm with
  | some _ => Except.error ("Cannot overwrite `" ++ nm ++ "` model once compiled.")
  | none => Except.ok (⟨nm, sid⟩, (nm, (⟨nm, sid⟩ : ModelDef)) :: reg)

/-- booking.model.ts lines 75-76:
`mongoose.models.Booking || mongoose.model('Booking', bookingSchema)` —
consult the registry under the key `"Booking"` first and reuse the
registered model if present; only define when absent. -/
def getBookingModel (reg : List (String × ModelDef)) :
    Except String (ModelDef × List (String × ModelDef)) :=
  match reg.lookup "Booking" with
  | some m => Except.ok (m, reg)
  | none => defineModel reg "Booking" bookingSchemaId

/-- C10: Booking model registration is idempotent.  Whenever a
registration run succeeded — returning model `m` and leaving registry
`r2` — running the registration again on `r2` (as under a hot reload)
raises no duplicate-registration error and returns the very same model
and registry: the guard consults the registry keyed by the model name
before defining. -/
theorem booking_model_registration_idempotent
    (r1 : List (String × ModelDef)) (m : ModelDef)
    (r2 : List (String × ModelDef))
    (h : getBookingModel r1 = Except.ok (m, r2)) :
    getBookingModel r2 = Except.ok (m, r2) := by
  unfold getBookingModel at h
  cases hlk : r1.lookup "Booking" with
  | some m0 =>
    rw [hlk] at h
    simp only [Except.ok.injEq, Prod.mk.injEq] at h
    obtain ⟨hm, hr⟩ := h
    unfold getBookingModel
    rw [← hr, hlk, hm]
  | none =>
    rw [hlk] at h
    unfold defineModel at h
    rw [hlk] at h
    simp only [Except.ok.injEq, Prod.mk.injEq] at h
    obtain ⟨hm, hr⟩ := h
    unfold getBookingModel
    rw [← hr]
    simp only [List.lookup_cons]
    rw [show (("Booking" : String) == "Booking") = true from beq_self_eq_true "Booking"]
    simp only
    rw [hm]

/-- Witness for C10: define from an empty registry, then re-register —
the same model and registry come back with no error. -/
theorem booking_model_registration_idempotent_w :
    getBookingModel [("Booking", (⟨"Booking", bookingSchemaId⟩ : ModelDef))]
      = Except.ok ((⟨"Booking", bookingSchemaId⟩ : ModelDef),
          [("Booking", (⟨"Booking", bookingSchemaId⟩ : ModelDef))]) :=
  booking_model_registration_idempotent [] ⟨"Booking", bookingSchemaId⟩
    [("Booking", ⟨"Booking", bookingSchemaId⟩)] rfl
